import Mathlib

/- Shallow embedding of the directory-statistics engine of duyvu871/utils.
   Sources embedded here:
   - the LineCounter class (countLinesInFile and its comment-pattern sets),
   - the StatisticsCollector class (addFile, addDirectory, finalize),
   - the entry filter of listDirRecursive and the estimateItemCount pre-scan
     from commands/listDir.ts.
   File contents are modelled as lists of characters; a file read that throws
   is modelled as an absent (Option.none) content.  Compiled regular
   expressions are modelled as boolean string matchers.  JavaScript's stable
   Array.prototype.sort (ES2019) is modelled as a stable insertion sort. -/

namespace DirStats

/-- Whitespace characters, covering the JS regex class \s and
    String.prototype.trim for the character ranges that occur in practice. -/
def isWS (c : Char) : Bool :=
  c == ' ' || c == '\t' || c == '\n' || c == '\r' || c == Char.ofNat 11 || c == Char.ofNat 12

/-- Model of JavaScript String.prototype.split with a one-character
    separator: "a\n" splits into ["a", ""], "" splits into [""]. -/
def splitOnChar (sep : Char) : List Char → List (List Char)
  | [] => [[]]
  | c :: rest =>
    let r := splitOnChar sep rest
    if c == sep then [] :: r
    else
      match r with
      | [] => [[c]]
      | l :: ls => (c :: l) :: ls

/-- Model of String.prototype.trim at the start of a string. -/
def trimL (l : List Char) : List Char := l.dropWhile isWS

/-- Model of String.prototype.trim at the end of a string. -/
def trimR (l : List Char) : List Char := (l.reverse.dropWhile isWS).reverse

/-- Model of String.prototype.trim. -/
def trimWS (l : List Char) : List Char := trimR (trimL l)

/-- The single-quote character, written by code point to keep sources free of
    quoting ambiguity. -/
def sq : Char := Char.ofNat 39

/-- Test for a regex of the shape  ^\s*TOK.*$  on a single line (no newline in
    the line, so .*$ always matches the remainder): since no character of any
    comment token is itself whitespace, the regex matches exactly when the
    line with leading whitespace removed starts with TOK. -/
def startTok (tok : List Char) (line : List Char) : Bool :=
  tok.isPrefixOf (line.dropWhile isWS)

/-- Test for a regex of the shape  .*TOK\s*$  on a single line: matches
    exactly when the line with trailing whitespace removed ends with TOK. -/
def endTok (tok : List Char) (line : List Char) : Bool :=
  tok.reverse.isPrefixOf (line.reverse.dropWhile isWS)

/-- COMMENT_PATTERNS.singleLine of LineCounter:  //  #  --  ;  '  *  each
    anchored as ^\s*TOK.*$ . -/
def isSingleLineComment (line : List Char) : Bool :=
  startTok ['/', '/'] line || startTok ['#'] line || startTok ['-', '-'] line ||
  startTok [';'] line || startTok [sq] line || startTok ['*'] line

/-- COMMENT_PATTERNS.multiLineStart of LineCounter: /* , <!-- , """ , '''
    each anchored as ^\s*TOK.*$ . -/
def isBlockStart (line : List Char) : Bool :=
  startTok ['/', '*'] line || startTok ['<', '!', '-', '-'] line ||
  startTok ['"', '"', '"'] line || startTok [sq, sq, sq] line

/-- COMMENT_PATTERNS.multiLineEnd of LineCounter: */ , --> , """ , '''
    each anchored as .*TOK\s*$ . -/
def isBlockEnd (line : List Char) : Bool :=
  endTok ['*', '/'] line || endTok ['-', '-', '>'] line ||
  endTok ['"', '"', '"'] line || endTok [sq, sq, sq] line

/-- LineCount record of lineCounter.ts. -/
structure LineCount where
  total : Nat
  code : Nat
  comments : Nat
  blank : Nat
deriving DecidableEq, Repr

/-- FileLineInfo record of lineCounter.ts. -/
structure FileLineInfo where
  extension : String
  lineCount : LineCount
  isCodeFile : Bool
deriving DecidableEq, Repr

/-- CODE_EXTENSIONS set of LineCounter. -/
def CODE_EXTENSIONS : List String :=
  [".js", ".jsx", ".ts", ".tsx", ".java", ".py", ".c", ".cpp", ".h", ".hpp",
   ".cs", ".php", ".rb", ".go", ".rs", ".swift", ".kt", ".scala", ".dart",
   ".vue", ".svelte", ".html", ".css", ".scss", ".sass", ".less", ".sql",
   ".xml", ".json", ".yaml", ".yml", ".toml", ".ini", ".conf", ".sh", ".bat",
   ".ps1", ".r", ".m", ".pl", ".lua", ".vim", ".dockerfile", ".makefile"]

/-- Model of path.basename restricted to the character list of a POSIX path:
    the suffix after the last separator. -/
def basenameChars (p : List Char) : List Char :=
  (p.reverse.takeWhile (fun c => c != '/')).reverse

/-- Model of path.extname: the suffix of the basename from its last dot, or
    empty when the basename has no dot or only a leading dot. -/
def extnameChars (p : List Char) : List Char :=
  let b := basenameChars p
  let r := b.reverse
  let s := r.takeWhile (fun c => c != '.')
  if s.length = r.length then []
  else if s.length + 1 = r.length then []
  else '.' :: s.reverse

/-- path.extname(filePath).toLowerCase() as used by LineCounter and the
    StatisticsCollector. -/
def extOf (p : String) : String :=
  String.mk ((extnameChars p.toList).map Char.toLower)

/-- The per-line loop of LineCounter.countLinesInFile over the code-file
    branch: one pass with the inMultiLineComment flag, producing the
    (codeLines, commentLines, blankLines) counters. -/
def countLoop : List (List Char) → Bool → Nat → Nat → Nat → Nat × Nat × Nat
  | [], _, code, comments, blank => (code, comments, blank)
  | line :: rest, inBlock, code, comments, blank =>
    if trimWS line = [] then
      countLoop rest inBlock code comments (blank + 1)
    else if inBlock then
      countLoop rest (if isBlockEnd line then false else true) code (comments + 1) blank
    else if isBlockStart line then
      countLoop rest (if isBlockEnd line then false else true) code (comments + 1) blank
    else if isSingleLineComment line then
      countLoop rest inBlock code (comments + 1) blank
    else
      countLoop rest inBlock (code + 1) comments blank

/-- LineCounter.countLinesInFile.  The file system read is supplied as an
    optional content; a read that throws is the none case and yields null. -/
def countLinesInFile (filePath : String) (content? : Option (List Char)) :
    Option FileLineInfo :=
  match content? with
  | none => none
  | some content =>
    let ext := extOf filePath
    let isCode := CODE_EXTENSIONS.contains ext
    let lines := splitOnChar '\n' content
    if isCode then
      let r := countLoop lines false 0 0 0
      some { extension := if ext = "" then "(no extension)" else ext
             lineCount := { total := lines.length
                            code := r.1, comments := r.2.1, blank := r.2.2 }
             isCodeFile := true }
    else
      some { extension := if ext = "" then "(no extension)" else ext
             lineCount := { total := lines.length, code := 0, comments := 0, blank := 0 }
             isCodeFile := false }

theorem countLoop_sum (lines : List (List Char)) :
    ∀ (inB : Bool) (c m b : Nat),
      (countLoop lines inB c m b).1 + (countLoop lines inB c m b).2.1
          + (countLoop lines inB c m b).2.2
        = c + m + b + lines.length := by
  induction lines with
  | nil => intro inB c m b; simp [countLoop]
  | cons line rest ih =>
    intro inB c m b
    simp only [countLoop, List.length_cons]
    by_cases h1 : trimWS line = []
    · simp only [if_pos h1]; rw [ih]; omega
    · simp only [if_neg h1]
      by_cases h2 : inB
      · simp only [if_pos h2]; rw [ih]; omega
      · simp only [if_neg h2]
        by_cases h3 : isBlockStart line = true
        · simp only [if_pos h3]; rw [ih]; omega
        · simp only [if_neg h3]
          by_cases h4 : isSingleLineComment line = true
          · simp only [if_pos h4]; rw [ih]; omega
          · simp only [if_neg h4]; rw [ih]; omega

/-- Counterexample to Claim C1: the non-code file "a.md" with content "hi"
    yields LineCount{total:1, code:0, comments:0, blank:0}, and
    1 ≠ 0 + 0 + 0, so the claimed invariant total = code + comments + blank
    fails on every LineCount the classifier produces for a non-code file. -/
theorem c1_claim_false :
    countLinesInFile "a.md" (some ("hi".toList))
        = some { extension := ".md", lineCount := ⟨1, 0, 0, 0⟩
                 isCodeFile := false }
      ∧ ¬ (({ extension := ".md", lineCount := ⟨1, 0, 0, 0⟩
              isCodeFile := false } : FileLineInfo).lineCount.total
            = ({ extension := ".md", lineCount := ⟨1, 0, 0, 0⟩
                 isCodeFile := false } : FileLineInfo).lineCount.code
              + ({ extension := ".md", lineCount := ⟨1, 0, 0, 0⟩
                   isCodeFile := false } : FileLineInfo).lineCount.comments
              + ({ extension := ".md", lineCount := ⟨1, 0, 0, 0⟩
                   isCodeFile := false } : FileLineInfo).lineCount.blank) := by
  constructor
  · decide
  · decide

/-- Claim C1 (amended): every LineCount produced by countLinesInFile for a
    code file satisfies total = code + comments + blank; for a non-code file
    the classifier returns code = comments = blank = 0 and total equal to the
    raw line count of the content (the number of newline-split segments),
    which is at least 1, so the sum invariant holds exactly for code files. -/
theorem lineCount_invariant (filePath : String) (content : List Char)
    (info : FileLineInfo)
    (h : countLinesInFile filePath (some content) = some info) :
    (info.isCodeFile = true →
        info.lineCount.total
          = info.lineCount.code + info.lineCount.comments + info.lineCount.blank)
      ∧ (info.isCodeFile = false →
          info.lineCount.code = 0 ∧ info.lineCount.comments = 0
            ∧ info.lineCount.blank = 0
            ∧ info.lineCount.total = (splitOnChar '\n' content).length
            ∧ 1 ≤ info.lineCount.total) := by
  unfold countLinesInFile at h
  by_cases hc : CODE_EXTENSIONS.contains (extOf filePath) = true
  · simp only [hc, if_pos] at h
    obtain rfl : _ = info := Option.some.inj h
    refine ⟨fun _ => ?_, ?_⟩
    · have := countLoop_sum (splitOnChar '\n' content) false 0 0 0
      simpa using this.symm
    · intro hfalse; simp at hfalse
  · simp only [Bool.not_eq_true] at hc
    simp only [hc, Bool.false_eq_true, if_neg, not_false_iff] at h
    obtain rfl : _ = info := Option.some.inj h
    refine ⟨fun habs => by simp at habs, fun _ => ⟨rfl, rfl, rfl, rfl, ?_⟩⟩
    cases content with
    | nil => simp [splitOnChar]
    | cons c rest =>
      show 1 ≤ (splitOnChar '\n' (c :: rest)).length
      simp only [splitOnChar]
      by_cases hcn : (c == '\n') = true
      · simp [hcn]
      · simp only [hcn, Bool.false_eq_true, if_neg, not_false_iff]
        cases splitOnChar '\n' rest with
        | nil => simp
        | cons l ls => simp

/-- Witness for the amended Claim C1 at the concrete code file "a.py" with
    content "# comment\n\ncode_line()\n". -/
theorem lineCount_invariant_witness :
    (({ extension := ".py", lineCount := ⟨4, 1, 1, 2⟩, isCodeFile := true }
          : FileLineInfo).isCodeFile = true →
        ({ extension := ".py", lineCount := ⟨4, 1, 1, 2⟩, isCodeFile := true }
            : FileLineInfo).lineCount.total
          = ({ extension := ".py", lineCount := ⟨4, 1, 1, 2⟩, isCodeFile := true }
              : FileLineInfo).lineCount.code
            + ({ extension := ".py", lineCount := ⟨4, 1, 1, 2⟩, isCodeFile := true }
                : FileLineInfo).lineCount.comments
            + ({ extension := ".py", lineCount := ⟨4, 1, 1, 2⟩, isCodeFile := true }
                : FileLineInfo).lineCount.blank)
      ∧ (({ extension := ".py", lineCount := ⟨4, 1, 1, 2⟩, isCodeFile := true }
            : FileLineInfo).isCodeFile = false →
          ({ extension := ".py", lineCount := ⟨4, 1, 1, 2⟩, isCodeFile := true }
              : FileLineInfo).lineCount.code = 0
            ∧ ({ extension := ".py", lineCount := ⟨4, 1, 1, 2⟩, isCodeFile := true }
                : FileLineInfo).lineCount.comments = 0
            ∧ ({ extension := ".py", lineCount := ⟨4, 1, 1, 2⟩, isCodeFile := true }
                : FileLineInfo).lineCount.blank = 0
            ∧ ({ extension := ".py", lineCount := ⟨4, 1, 1, 2⟩, isCodeFile := true }
                : FileLineInfo).lineCount.total
              = (splitOnChar '\n' ("# comment\n\ncode_line()\n".toList)).length
            ∧ 1 ≤ ({ extension := ".py", lineCount := ⟨4, 1, 1, 2⟩
                     isCodeFile := true } : FileLineInfo).lineCount.total) :=
  lineCount_invariant "a.py" ("# comment\n\ncode_line()\n".toList)
    { extension := ".py", lineCount := ⟨4, 1, 1, 2⟩, isCodeFile := true }
    (by decide)

/-- The content of the C2 scenario. -/
def c2content : List Char := "/* start\nmiddle\nend */\ncode();\n".toList

/-- Counterexample to Claim C2: on the stated .js content the classifier
    returns total 5, code 1, comments 3, blank 1 (split on newline yields a
    trailing empty fifth line, counted blank), not total 4 and blank 0. -/
theorem c2_claim_false :
    countLinesInFile "a.js" (some c2content)
      ≠ some { extension := ".js"
               lineCount := { total := 4, code := 1, comments := 3, blank := 0 }
               isCodeFile := true } := by decide

/-- Claim C2 (amended): on the .js content "/* start\nmiddle\nend */\ncode();\n"
    lines 1 through 3 are classified comments (the block state spans them) and
    line 4 code; newline splitting also yields a trailing empty fifth line
    counted blank, so the classifier returns
    LineCount{total:5, code:1, comments:3, blank:1}. -/
theorem c2_amended :
    countLinesInFile "a.js" (some c2content)
      = some { extension := ".js"
               lineCount := { total := 5, code := 1, comments := 3, blank := 1 }
               isCodeFile := true } := by decide

/-- The content of the C3 scenario. -/
def c3content : List Char := "# comment\n\ncode_line()\n".toList

/-- Counterexample to Claim C3: on the stated .py content the classifier
    returns total 4, code 1, comments 1, blank 2 (split on newline yields a
    trailing empty fourth line, counted blank), not total 3 and blank 1. -/
theorem c3_claim_false :
    countLinesInFile "a.py" (some c3content)
      ≠ some { extension := ".py"
               lineCount := { total := 3, code := 1, comments := 1, blank := 1 }
               isCodeFile := true } := by decide

/-- Claim C3 (amended): on the .py content "# comment\n\ncode_line()\n" with
    line counting enabled the classifier returns
    LineCount{total:4, code:1, comments:1, blank:2}: the comment line, the
    empty second line, the code line, and the trailing empty fourth line
    produced by the final newline. -/
theorem c3_amended :
    countLinesInFile "a.py" (some c3content)
      = some { extension := ".py"
               lineCount := { total := 4, code := 1, comments := 1, blank := 2 }
               isCodeFile := true } := by decide

/-- A compiled regular expression is modelled by its test method: a boolean
    matcher on strings. -/
def Matcher : Type := String → Bool

/-- The slice of the validated configuration the core reads: the exact-name
    exclusion list (config.exclude) and the compiled exclusion patterns
    (config['exclude-patterns'] after new RegExp). -/
structure ScanConfig where
  excludeNames : List String
  excludePatterns : List Matcher

/-- The filter callback of listDirRecursive: keeps an entry unless its name
    is an exact member of the exclude list, or some pattern matches the entry
    name or its path relative to the scan root. -/
def keepEntry (cfg : ScanConfig) (item relativePath : String) : Bool :=
  if cfg.excludeNames.contains item then false
  else if cfg.excludePatterns.any (fun p => p item || p relativePath) then false
  else true

/-- Claim C6: the Exclusion Filter is a pure predicate; an entry is excluded
    exactly when its name is an exact member of excludeNames (regardless of
    patterns), or some pattern matches the entry name or the entry's path
    relative to the scan root; otherwise it is kept. -/
theorem keepEntry_spec (cfg : ScanConfig) (item relativePath : String) :
    (keepEntry cfg item relativePath = false
        ↔ item ∈ cfg.excludeNames
          ∨ ∃ p ∈ cfg.excludePatterns, p item = true ∨ p relativePath = true)
      ∧ (item ∈ cfg.excludeNames → keepEntry cfg item relativePath = false)
      ∧ (keepEntry cfg item relativePath = true
          ↔ item ∉ cfg.excludeNames
            ∧ ∀ p ∈ cfg.excludePatterns, p item = false ∧ p relativePath = false) := by
  unfold keepEntry
  split_ifs with h1 h2
  · simp at h1
    refine ⟨iff_of_true rfl (Or.inl h1), fun _ => rfl, iff_of_false (by simp) ?_⟩
    rintro ⟨hnot, -⟩
    exact hnot h1
  · simp at h1
    rw [List.any_eq_true] at h2
    obtain ⟨p, hp, hor⟩ := h2
    rw [Bool.or_eq_true] at hor
    refine ⟨iff_of_true rfl (Or.inr ⟨p, hp, hor⟩), fun hm => absurd hm h1,
      iff_of_false (by simp) ?_⟩
    rintro ⟨-, hall⟩
    obtain ⟨ha, hb⟩ := hall p hp
    rcases hor with h | h
    · rw [ha] at h; simp at h
    · rw [hb] at h; simp at h
  · simp at h1
    simp only [List.any_eq_false, Bool.not_eq_true, Bool.or_eq_false_iff] at h2
    refine ⟨iff_of_false (by simp) ?_, fun hm => absurd hm h1, iff_of_true rfl ⟨h1, h2⟩⟩
    rintro (hm | ⟨p, hp, hor⟩)
    · exact h1 hm
    · obtain ⟨ha, hb⟩ := h2 p hp
      rcases hor with h | h
      · rw [ha] at h; simp at h
      · rw [hb] at h; simp at h

/- File-system trees for the estimator model, as a mutual pair so that all
   recursions stay structural.  A dir carries whether readdirSync succeeds on
   it; a statErr node is an entry whose statSync throws. -/
mutual
inductive FSNode where
  | file (name : String)
  | statErr (name : String)
  | dir (name : String) (entries : FSList) (readable : Bool)
inductive FSList where
  | nil
  | cons (hd : FSNode) (tl : FSList)
end

/-- The name of a file-system node. -/
def FSNode.name : FSNode → String
  | .file n => n
  | .statErr n => n
  | .dir n _ _ => n

/-- The quick exclusion check inside estimateItemCount: exact names from
    config.exclude, then each pattern tested against the entry NAME only. -/
def estFilter (cfg : ScanConfig) (item : String) : Bool :=
  if cfg.excludeNames.contains item then false
  else if cfg.excludePatterns.any (fun p => p item) then false
  else true

/- The countRecursive helper of estimateItemCount.  A call at depth > 4
    returns at once; an unreadable dir contributes 0 (readdirSync throws and
    the catch ignores it); files and statErr entries are never recursed into
    (statSync is false or throws), but every filtered entry at a visited
   level is counted once via countRecursiveList. -/
mutual
def countRecursive (cfg : ScanConfig) (depth : Nat) : FSNode → Nat
  | .dir _ entries readable =>
    if 4 < depth then 0
    else if readable then countRecursiveList cfg depth entries
    else 0
  | _ => 0
def countRecursiveList (cfg : ScanConfig) (depth : Nat) : FSList → Nat
  | .nil => 0
  | .cons e rest =>
    (if estFilter cfg e.name then 1 + countRecursive cfg (depth + 1) e else 0)
      + countRecursiveList cfg depth rest
end

/-- estimateItemCount of listDir.ts: run countRecursive from depth 0 at the
    root and floor the result at 20. -/
def estimateItemCount (cfg : ScanConfig) (root : FSNode) : Nat :=
  max (countRecursive cfg 0 root) 20

/-- Relative path of a child entry below the scan root, as path.relative
    produces it during the walk. -/
def childRel (rel name : String) : String :=
  if rel = "" then name else rel ++ "/" ++ name

/- Modelled from the spec: the estimator Claim C7 describes, which applies
    the full Exclusion Filter (entry name AND path relative to the scan root)
    at every level; it differs from the source's estimateItemCount, which
   never computes a relative path. -/
mutual
def specCountRecursive (cfg : ScanConfig) (depth : Nat) (rel : String) : FSNode → Nat
  | .dir _ entries readable =>
    if 4 < depth then 0
    else if readable then specCountRecursiveList cfg depth rel entries
    else 0
  | _ => 0
def specCountRecursiveList (cfg : ScanConfig) (depth : Nat) (rel : String) : FSList → Nat
  | .nil => 0
  | .cons e rest =>
    (if keepEntry cfg e.name (childRel rel e.name) then
        1 + specCountRecursive cfg (depth + 1) (childRel rel e.name) e
      else 0)
      + specCountRecursiveList cfg depth rel rest
end

/-- Modelled from the spec: estimate with the full Exclusion Filter. -/
def specEstimateItemCount (cfg : ScanConfig) (root : FSNode) : Nat :=
  max (specCountRecursive cfg 0 "" root) 20

/-- A configuration whose single pattern matches exactly the relative path
    "d/x" and no entry name. -/
def cfg7 : ScanConfig :=
  { excludeNames := [], excludePatterns := [fun s => s == "d/x"] }

/-- A root with 21 plain files and a directory d containing one file x. -/
def tree7 : FSNode :=
  .dir "" (FSList.cons (.dir "d" (FSList.cons (.file "x") .nil) true)
    (FSList.cons (.file "f01") (FSList.cons (.file "f02") (FSList.cons (.file "f03")
    (FSList.cons (.file "f04") (FSList.cons (.file "f05") (FSList.cons (.file "f06")
    (FSList.cons (.file "f07") (FSList.cons (.file "f08") (FSList.cons (.file "f09")
    (FSList.cons (.file "f10") (FSList.cons (.file "f11") (FSList.cons (.file "f12")
    (FSList.cons (.file "f13") (FSList.cons (.file "f14") (FSList.cons (.file "f15")
    (FSList.cons (.file "f16") (FSList.cons (.file "f17") (FSList.cons (.file "f18")
    (FSList.cons (.file "f19") (FSList.cons (.file "f20")
    (FSList.cons (.file "f21") .nil)))))))))))))))))))))) true

/-- Counterexample to Claim C7: with a pattern matching only the relative
    path "d/x", the estimator the claim describes (name and relative-path
    tests) would exclude x and return 22, but the source's estimateItemCount
    tests patterns against entry names only, counts x, and returns 23. -/
theorem c7_claim_false :
    estimateItemCount cfg7 tree7 = 23
      ∧ specEstimateItemCount cfg7 tree7 = 22
      ∧ estimateItemCount cfg7 tree7 ≠ specEstimateItemCount cfg7 tree7 := by
  refine ⟨by decide, by decide, by decide⟩

/- The list of surviving entry names the estimator counts, level by level:
   an independent enumeration of what countRecursive tallies. -/
mutual
def survivors (cfg : ScanConfig) (depth : Nat) : FSNode → List String
  | .dir _ entries readable =>
    if 4 < depth then []
    else if readable then survivorsList cfg depth entries
    else []
  | _ => []
def survivorsList (cfg : ScanConfig) (depth : Nat) : FSList → List String
  | .nil => []
  | .cons e rest =>
    (if estFilter cfg e.name then e.name :: survivors cfg (depth + 1) e else [])
      ++ survivorsList cfg depth rest
end

mutual
theorem countRecursive_eq_survivors (cfg : ScanConfig) (depth : Nat) :
    (n : FSNode) → countRecursive cfg depth n = (survivors cfg depth n).length
  | .file _ => rfl
  | .statErr _ => rfl
  | .dir nm entries readable => by
    simp only [countRecursive, survivors]
    by_cases h1 : 4 < depth
    · simp [h1]
    · simp only [h1, if_neg, not_false_iff]
      by_cases h2 : readable = true
      · simp only [h2, if_pos]
        exact countRecursiveList_eq_survivorsList cfg depth entries
      · simp only [Bool.not_eq_true] at h2
        simp [h2]
theorem countRecursiveList_eq_survivorsList (cfg : ScanConfig) (depth : Nat) :
    (l : FSList) → countRecursiveList cfg depth l = (survivorsList cfg depth l).length
  | .nil => rfl
  | .cons e rest => by
    simp only [countRecursiveList, survivorsList, List.length_append]
    rw [countRecursiveList_eq_survivorsList cfg depth rest]
    by_cases h : estFilter cfg e.name = true
    · simp only [h, if_pos, List.length_cons]
      rw [countRecursive_eq_survivors cfg (depth + 1) e]
      omega
    · simp only [Bool.not_eq_true] at h
      simp [h]
end

/-- Claim C7 (amended): the Item-Count Estimator performs a depth-first
    pre-scan bounded to recursion depth 4 below the root, applies the
    name-only exclusion tests (exact excludeNames membership and patterns
    tested against the entry name only, never the relative path) at every
    level, counts every surviving entry (files and directories) at every
    visited level, lets traversal errors at any subdirectory contribute 0
    while continuing elsewhere, and returns max(count, 20). -/
theorem estimateItemCount_spec (cfg : ScanConfig) (root : FSNode)
    (nm : String) (entries : FSList) (e : FSNode) (rest : FSList) (depth : Nat) :
    estimateItemCount cfg root = max ((survivors cfg 0 root).length) 20
      ∧ 20 ≤ estimateItemCount cfg root
      ∧ countRecursive cfg depth (.dir nm entries false) = 0
      ∧ (4 < depth → countRecursive cfg depth (.dir nm entries true) = 0)
      ∧ (estFilter cfg e.name = false →
          countRecursiveList cfg depth (.cons e rest)
            = countRecursiveList cfg depth rest)
      ∧ (estFilter cfg e.name = true →
          countRecursiveList cfg depth (.cons e rest)
            = 1 + countRecursive cfg (depth + 1) e
              + countRecursiveList cfg depth rest)
      ∧ (estFilter cfg e.name = true
          ↔ e.name ∉ cfg.excludeNames
            ∧ ∀ p ∈ cfg.excludePatterns, p e.name = false) := by
  refine ⟨?_, ?_, ?_, ?_, ?_, ?_, ?_⟩
  · unfold estimateItemCount
    rw [countRecursive_eq_survivors]
  · exact le_max_right _ _
  · simp [countRecursive]
  · intro h; simp [countRecursive, h]
  · intro h; simp [countRecursiveList, h]
  · intro h; simp only [countRecursiveList, h, if_pos]; try omega
  · unfold estFilter
    split_ifs with h1 h2
    · simp at h1
      refine iff_of_false (by simp) ?_
      rintro ⟨hnot, -⟩
      exact hnot h1
    · simp at h1
      rw [List.any_eq_true] at h2
      obtain ⟨p, hp, hpt⟩ := h2
      refine iff_of_false (by simp) ?_
      rintro ⟨-, hall⟩
      rw [hall p hp] at hpt
      simp at hpt
    · simp at h1
      simp only [List.any_eq_false, Bool.not_eq_true] at h2
      exact iff_of_true rfl ⟨h1, h2⟩

/-- Witness for the amended Claim C7 at the concrete configuration cfg7,
    tree tree7, its root child subtree, and depth 5. -/
theorem estimateItemCount_spec_witness :
    estimateItemCount cfg7 tree7 = max ((survivors cfg7 0 tree7).length) 20
      ∧ 20 ≤ estimateItemCount cfg7 tree7
      ∧ countRecursive cfg7 5 (.dir "u" .nil false) = 0
      ∧ (4 < 5 → countRecursive cfg7 5 (.dir "u" .nil true) = 0)
      ∧ (estFilter cfg7 (FSNode.file "x").name = false →
          countRecursiveList cfg7 5 (.cons (.file "x") .nil)
            = countRecursiveList cfg7 5 .nil)
      ∧ (estFilter cfg7 (FSNode.file "x").name = true →
          countRecursiveList cfg7 5 (.cons (.file "x") .nil)
            = 1 + countRecursive cfg7 6 (.file "x")
              + countRecursiveList cfg7 5 .nil)
      ∧ (estFilter cfg7 (FSNode.file "x").name = true
          ↔ (FSNode.file "x").name ∉ cfg7.excludeNames
            ∧ ∀ p ∈ cfg7.excludePatterns, p (FSNode.file "x").name = false) :=
  estimateItemCount_spec cfg7 tree7 "u" .nil (.file "x") .nil 5

/-- An entry of the largestFiles ranking of statistics.ts. -/
structure LFile where
  name : String
  size : Nat
  path : String
deriving DecidableEq, Repr

/-- Stable descending insertion by size: the new element passes a resident
    exactly when strictly larger, so equal sizes keep insertion order. -/
def insertDesc (x : LFile) : List LFile → List LFile
  | [] => [x]
  | y :: ys => if y.size < x.size then x :: y :: ys else y :: insertDesc x ys

/-- Model of ES2019 stable Array.prototype.sort with the comparator
    (a, b) => b.size - a.size of statistics.ts: a left fold of stable
    descending insertions, which computes exactly the stable descending
    reordering. -/
def sortDesc (l : List LFile) : List LFile :=
  l.foldl (fun acc x => insertDesc x acc) []

/-- FileStats record of statistics.ts.  The extension maps are total
    functions into Option, so that an absent key is none; avgFileSize is an
    exact rational standing for the JS number quotient. -/
structure FileStats where
  totalFiles : Nat
  totalDirectories : Nat
  totalSize : Nat
  filesByExtension : String → Option Nat
  sizeByExtension : String → Option Nat
  largestFiles : List LFile
  deepestPath : String × Nat
  avgFileSize : ℚ
  totalLines : LineCount
  linesByExtension : String → Option LineCount
  codeFileCount : Nat
  nonCodeFileCount : Nat

/-- The initial stats object of the StatisticsCollector. -/
def initStats : FileStats :=
  { totalFiles := 0, totalDirectories := 0, totalSize := 0
    filesByExtension := fun _ => none, sizeByExtension := fun _ => none
    largestFiles := [], deepestPath := ("", 0), avgFileSize := 0
    totalLines := ⟨0, 0, 0, 0⟩, linesByExtension := fun _ => none
    codeFileCount := 0, nonCodeFileCount := 0 }

/-- Map.set on the functional map model. -/
def mapSet {α : Type} (m : String → Option α) (k : String) (v : α) :
    String → Option α :=
  fun q => if q = k then some v else m q

/-- path.extname(filePath).toLowerCase() || '(no extension)' of addFile. -/
def extKey (p : String) : String :=
  if extOf p = "" then "(no extension)" else extOf p

/-- path.basename as a string. -/
def basenameOf (p : String) : String := String.mk (basenameChars p.toList)

/-- filePath.split(path.sep).length of addFile, with the POSIX separator. -/
def pathDepth (p : String) : Nat := (splitOnChar '/' p.toList).length

/-- The line-counting block of addFile on classifier success: bump the
    code/non-code counter, add into totalLines, and add into the
    linesByExtension entry of this extension. -/
def updateLineStats (st : FileStats) (ext : String) (li : FileLineInfo) :
    FileStats :=
  let st :=
    if li.isCodeFile then { st with codeFileCount := st.codeFileCount + 1 }
    else { st with nonCodeFileCount := st.nonCodeFileCount + 1 }
  let st :=
    { st with totalLines :=
        { total := st.totalLines.total + li.lineCount.total
          code := st.totalLines.code + li.lineCount.code
          comments := st.totalLines.comments + li.lineCount.comments
          blank := st.totalLines.blank + li.lineCount.blank } }
  let ex := (st.linesByExtension ext).getD ⟨0, 0, 0, 0⟩
  let merged : LineCount :=
    { total := ex.total + li.lineCount.total
      code := ex.code + li.lineCount.code
      comments := ex.comments + li.lineCount.comments
      blank := ex.blank + li.lineCount.blank }
  { st with linesByExtension := mapSet st.linesByExtension ext merged }

/-- The largest-files block of addFile: push the new entry, sort descending
    by size, and truncate to 5 when longer. -/
def updateLargest (st : FileStats) (filePath : String) (size : Nat) :
    FileStats :=
  let pushed :=
    st.largestFiles ++ [{ name := basenameOf filePath, size := size, path := filePath }]
  let sorted := sortDesc pushed
  { st with largestFiles := if 5 < sorted.length then sorted.take 5 else sorted }

/-- The deepest-path block of addFile: replace the stored pair only when the
    new segment count is strictly greater. -/
def updateDeepest (st : FileStats) (filePath : String) : FileStats :=
  let depth := pathDepth filePath
  if st.deepestPath.2 < depth then { st with deepestPath := (filePath, depth) }
  else st

/-- The opening block of addFile: bump totalFiles, add the size into
    totalSize, and track the extension in both extension maps. -/
def addFileCore (st : FileStats) (ext : String) (size : Nat) : FileStats :=
  let st :=
    { st with totalFiles := st.totalFiles + 1, totalSize := st.totalSize + size }
  { st with
    filesByExtension :=
      mapSet st.filesByExtension ext ((st.filesByExtension ext).getD 0 + 1)
    sizeByExtension :=
      mapSet st.sizeByExtension ext ((st.sizeByExtension ext).getD 0 + size) }

/-- StatisticsCollector.addFile.  The classifier outcome is supplied as an
    optional FileLineInfo; null from countLinesInFile is the none case. -/
def addFile (countLines : Bool) (st : FileStats) (filePath : String)
    (size : Nat) (lineInfo : Option FileLineInfo) : FileStats :=
  let ext := extKey filePath
  let st := addFileCore st ext size
  let st :=
    if countLines then
      match lineInfo with
      | some li => updateLineStats st ext li
      | none => st
    else st
  updateDeepest (updateLargest st filePath size) filePath

/-- StatisticsCollector.addDirectory. -/
def addDirectory (st : FileStats) : FileStats :=
  { st with totalDirectories := st.totalDirectories + 1 }

/-- StatisticsCollector.finalize. -/
def finalizeStats (st : FileStats) : FileStats :=
  { st with avgFileSize :=
      if 0 < st.totalFiles then (st.totalSize : ℚ) / st.totalFiles else 0 }

/-- One addFile call: the path and size handed in by the walker, plus the
    classifier outcome addFile would observe for that file. -/
structure FileCall where
  path : String
  size : Nat
  lineInfo : Option FileLineInfo

/-- A sequence of addFile calls against a running stats object. -/
def runAddFiles (countLines : Bool) (st : FileStats) (calls : List FileCall) :
    FileStats :=
  calls.foldl (fun s c => addFile countLines s c.path c.size c.lineInfo) st

/-- An aggregator event: an addFile call, an addDirectory call, or a
    finalize call. -/
inductive AggEvent where
  | file (path : String) (size : Nat) (lineInfo : Option FileLineInfo)
  | dir
  | fin

/-- Dispatch of one aggregator event. -/
def applyEvent (countLines : Bool) (st : FileStats) : AggEvent → FileStats
  | .file p s li => addFile countLines st p s li
  | .dir => addDirectory st
  | .fin => finalizeStats st

/-- A sequence of aggregator events against a running stats object. -/
def runEvents (countLines : Bool) (st : FileStats) (evs : List AggEvent) :
    FileStats :=
  evs.foldl (applyEvent countLines) st

@[simp] theorem mapSet_apply {α : Type} (m : String → Option α) (k : String)
    (v : α) (q : String) :
    mapSet m k v q = if q = k then some v else m q := rfl

@[simp] theorem updateLineStats_totalFiles (st : FileStats) (ext : String)
    (li : FileLineInfo) :
    (updateLineStats st ext li).totalFiles = st.totalFiles := by
  unfold updateLineStats; by_cases h : li.isCodeFile = true <;> simp [h]

@[simp] theorem updateLineStats_totalSize (st : FileStats) (ext : String)
    (li : FileLineInfo) :
    (updateLineStats st ext li).totalSize = st.totalSize := by
  unfold updateLineStats; by_cases h : li.isCodeFile = true <;> simp [h]

@[simp] theorem updateLineStats_totalDirectories (st : FileStats) (ext : String)
    (li : FileLineInfo) :
    (updateLineStats st ext li).totalDirectories = st.totalDirectories := by
  unfold updateLineStats; by_cases h : li.isCodeFile = true <;> simp [h]

@[simp] theorem updateLineStats_filesByExtension (st : FileStats) (ext : String)
    (li : FileLineInfo) :
    (updateLineStats st ext li).filesByExtension = st.filesByExtension := by
  unfold updateLineStats; by_cases h : li.isCodeFile = true <;> simp [h]

@[simp] theorem updateLineStats_sizeByExtension (st : FileStats) (ext : String)
    (li : FileLineInfo) :
    (updateLineStats st ext li).sizeByExtension = st.sizeByExtension := by
  unfold updateLineStats; by_cases h : li.isCodeFile = true <;> simp [h]

@[simp] theorem updateLineStats_largestFiles (st : FileStats) (ext : String)
    (li : FileLineInfo) :
    (updateLineStats st ext li).largestFiles = st.largestFiles := by
  unfold updateLineStats; by_cases h : li.isCodeFile = true <;> simp [h]

@[simp] theorem updateLineStats_deepestPath (st : FileStats) (ext : String)
    (li : FileLineInfo) :
    (updateLineStats st ext li).deepestPath = st.deepestPath := by
  unfold updateLineStats; by_cases h : li.isCodeFile = true <;> simp [h]

theorem updateLineStats_linesByExtension (st : FileStats) (ext : String)
    (li : FileLineInfo) :
    (updateLineStats st ext li).linesByExtension
      = mapSet st.linesByExtension ext
          { total := ((st.linesByExtension ext).getD ⟨0, 0, 0, 0⟩).total
              + li.lineCount.total
            code := ((st.linesByExtension ext).getD ⟨0, 0, 0, 0⟩).code
              + li.lineCount.code
            comments := ((st.linesByExtension ext).getD ⟨0, 0, 0, 0⟩).comments
              + li.lineCount.comments
            blank := ((st.linesByExtension ext).getD ⟨0, 0, 0, 0⟩).blank
              + li.lineCount.blank } := by
  unfold updateLineStats; by_cases h : li.isCodeFile = true <;> simp [h]

@[simp] theorem updateLargest_totalFiles (st : FileStats) (p : String) (s : Nat) :
    (updateLargest st p s).totalFiles = st.totalFiles := rfl

@[simp] theorem updateLargest_totalSize (st : FileStats) (p : String) (s : Nat) :
    (updateLargest st p s).totalSize = st.totalSize := rfl

@[simp] theorem updateLargest_totalDirectories (st : FileStats) (p : String) (s : Nat) :
    (updateLargest st p s).totalDirectories = st.totalDirectories := rfl

@[simp] theorem updateLargest_filesByExtension (st : FileStats) (p : String) (s : Nat) :
    (updateLargest st p s).filesByExtension = st.filesByExtension := rfl

@[simp] theorem updateLargest_sizeByExtension (st : FileStats) (p : String) (s : Nat) :
    (updateLargest st p s).sizeByExtension = st.sizeByExtension := rfl

@[simp] theorem updateLargest_linesByExtension (st : FileStats) (p : String) (s : Nat) :
    (updateLargest st p s).linesByExtension = st.linesByExtension := rfl

@[simp] theorem updateLargest_totalLines (st : FileStats) (p : String) (s : Nat) :
    (updateLargest st p s).totalLines = st.totalLines := rfl

@[simp] theorem updateLargest_codeFileCount (st : FileStats) (p : String) (s : Nat) :
    (updateLargest st p s).codeFileCount = st.codeFileCount := rfl

@[simp] theorem updateLargest_nonCodeFileCount (st : FileStats) (p : String) (s : Nat) :
    (updateLargest st p s).nonCodeFileCount = st.nonCodeFileCount := rfl

@[simp] theorem updateLargest_deepestPath (st : FileStats) (p : String) (s : Nat) :
    (updateLargest st p s).deepestPath = st.deepestPath := rfl

theorem updateLargest_largestFiles (st : FileStats) (p : String) (s : Nat) :
    (updateLargest st p s).largestFiles
      = (sortDesc (st.largestFiles
          ++ [{ name := basenameOf p, size := s, path := p }])).take 5 := by
  unfold updateLargest
  dsimp only
  by_cases h : 5 < (sortDesc (st.largestFiles
      ++ [{ name := basenameOf p, size := s, path := p }])).length
  · simp [h]
  · simp [h, List.take_of_length_le (Nat.le_of_not_lt h)]

@[simp] theorem updateDeepest_totalFiles (st : FileStats) (p : String) :
    (updateDeepest st p).totalFiles = st.totalFiles := by
  unfold updateDeepest; by_cases h : st.deepestPath.2 < pathDepth p <;> simp [h]

@[simp] theorem updateDeepest_totalSize (st : FileStats) (p : String) :
    (updateDeepest st p).totalSize = st.totalSize := by
  unfold updateDeepest; by_cases h : st.deepestPath.2 < pathDepth p <;> simp [h]

@[simp] theorem updateDeepest_totalDirectories (st : FileStats) (p : String) :
    (updateDeepest st p).totalDirectories = st.totalDirectories := by
  unfold updateDeepest; by_cases h : st.deepestPath.2 < pathDepth p <;> simp [h]

@[simp] theorem updateDeepest_filesByExtension (st : FileStats) (p : String) :
    (updateDeepest st p).filesByExtension = st.filesByExtension := by
  unfold updateDeepest; by_cases h : st.deepestPath.2 < pathDepth p <;> simp [h]

@[simp] theorem updateDeepest_sizeByExtension (st : FileStats) (p : String) :
    (updateDeepest st p).sizeByExtension = st.sizeByExtension := by
  unfold updateDeepest; by_cases h : st.deepestPath.2 < pathDepth p <;> simp [h]

@[simp] theorem updateDeepest_linesByExtension (st : FileStats) (p : String) :
    (updateDeepest st p).linesByExtension = st.linesByExtension := by
  unfold updateDeepest; by_cases h : st.deepestPath.2 < pathDepth p <;> simp [h]

@[simp] theorem updateDeepest_totalLines (st : FileStats) (p : String) :
    (updateDeepest st p).totalLines = st.totalLines := by
  unfold updateDeepest; by_cases h : st.deepestPath.2 < pathDepth p <;> simp [h]

@[simp] theorem updateDeepest_codeFileCount (st : FileStats) (p : String) :
    (updateDeepest st p).codeFileCount = st.codeFileCount := by
  unfold updateDeepest; by_cases h : st.deepestPath.2 < pathDepth p <;> simp [h]

@[simp] theorem updateDeepest_nonCodeFileCount (st : FileStats) (p : String) :
    (updateDeepest st p).nonCodeFileCount = st.nonCodeFileCount := by
  unfold updateDeepest; by_cases h : st.deepestPath.2 < pathDepth p <;> simp [h]

@[simp] theorem updateDeepest_largestFiles (st : FileStats) (p : String) :
    (updateDeepest st p).largestFiles = st.largestFiles := by
  unfold updateDeepest; by_cases h : st.deepestPath.2 < pathDepth p <;> simp [h]

theorem updateDeepest_deepestPath (st : FileStats) (p : String) :
    (updateDeepest st p).deepestPath
      = if st.deepestPath.2 < pathDepth p then (p, pathDepth p)
        else st.deepestPath := by
  unfold updateDeepest; by_cases h : st.deepestPath.2 < pathDepth p <;> simp [h]

@[simp] theorem addFileCore_totalFiles (st : FileStats) (ext : String) (s : Nat) :
    (addFileCore st ext s).totalFiles = st.totalFiles + 1 := rfl

@[simp] theorem addFileCore_totalSize (st : FileStats) (ext : String) (s : Nat) :
    (addFileCore st ext s).totalSize = st.totalSize + s := rfl

@[simp] theorem addFileCore_totalDirectories (st : FileStats) (ext : String) (s : Nat) :
    (addFileCore st ext s).totalDirectories = st.totalDirectories := rfl

@[simp] theorem addFileCore_filesByExtension (st : FileStats) (ext : String) (s : Nat) :
    (addFileCore st ext s).filesByExtension
      = mapSet st.filesByExtension ext ((st.filesByExtension ext).getD 0 + 1) := rfl

@[simp] theorem addFileCore_sizeByExtension (st : FileStats) (ext : String) (s : Nat) :
    (addFileCore st ext s).sizeByExtension
      = mapSet st.sizeByExtension ext ((st.sizeByExtension ext).getD 0 + s) := rfl

@[simp] theorem addFileCore_linesByExtension (st : FileStats) (ext : String) (s : Nat) :
    (addFileCore st ext s).linesByExtension = st.linesByExtension := rfl

@[simp] theorem addFileCore_totalLines (st : FileStats) (ext : String) (s : Nat) :
    (addFileCore st ext s).totalLines = st.totalLines := rfl

@[simp] theorem addFileCore_codeFileCount (st : FileStats) (ext : String) (s : Nat) :
    (addFileCore st ext s).codeFileCount = st.codeFileCount := rfl

@[simp] theorem addFileCore_nonCodeFileCount (st : FileStats) (ext : String) (s : Nat) :
    (addFileCore st ext s).nonCodeFileCount = st.nonCodeFileCount := rfl

@[simp] theorem addFileCore_largestFiles (st : FileStats) (ext : String) (s : Nat) :
    (addFileCore st ext s).largestFiles = st.largestFiles := rfl

@[simp] theorem addFileCore_deepestPath (st : FileStats) (ext : String) (s : Nat) :
    (addFileCore st ext s).deepestPath = st.deepestPath := rfl

theorem addFile_totalFiles (cl : Bool) (st : FileStats) (p : String) (s : Nat)
    (li : Option FileLineInfo) :
    (addFile cl st p s li).totalFiles = st.totalFiles + 1
      ∧ (addFile cl st p s li).totalSize = st.totalSize + s := by
  cases cl <;> cases li <;> simp [addFile]

/-- Claim C5: for any sequence of addFile(path, size) calls, totalSize is the
    exact sum of the sizes and totalFiles is the number of calls. -/
theorem totals_spec (cl : Bool) (calls : List FileCall) :
    (runAddFiles cl initStats calls).totalSize = (calls.map (fun c => c.size)).sum
      ∧ (runAddFiles cl initStats calls).totalFiles = calls.length := by
  suffices h : ∀ (cs : List FileCall) (st : FileStats),
      (runAddFiles cl st cs).totalSize = st.totalSize + (cs.map (fun c => c.size)).sum
        ∧ (runAddFiles cl st cs).totalFiles = st.totalFiles + cs.length by
    have := h calls initStats
    simpa [initStats] using this
  intro cs
  induction cs with
  | nil => intro st; simp [runAddFiles]
  | cons c rest ih =>
    intro st
    have hstep := addFile_totalFiles cl st c.path c.size c.lineInfo
    have hrest := ih (addFile cl st c.path c.size c.lineInfo)
    unfold runAddFiles at hrest ⊢
    simp only [List.foldl_cons, List.map_cons, List.sum_cons, List.length_cons]
    rw [hrest.1, hrest.2, hstep.1, hstep.2]
    omega

/-- Claim C9: when line counting is enabled and the classifier fails for a
    file (countLinesInFile on an unreadable content is none), addFile still
    records the size-based statistics (totalFiles, totalSize,
    filesByExtension, sizeByExtension) but leaves totalLines,
    linesByExtension, codeFileCount and nonCodeFileCount unchanged. -/
theorem addFile_classifier_failure (st : FileStats) (p : String) (s : Nat) :
    (∀ fp : String, countLinesInFile fp none = none)
      ∧ (addFile true st p s none).totalFiles = st.totalFiles + 1
      ∧ (addFile true st p s none).totalSize = st.totalSize + s
      ∧ (addFile true st p s none).filesByExtension (extKey p)
          = some ((st.filesByExtension (extKey p)).getD 0 + 1)
      ∧ (addFile true st p s none).sizeByExtension (extKey p)
          = some ((st.sizeByExtension (extKey p)).getD 0 + s)
      ∧ (addFile true st p s none).totalLines = st.totalLines
      ∧ (addFile true st p s none).linesByExtension = st.linesByExtension
      ∧ (addFile true st p s none).codeFileCount = st.codeFileCount
      ∧ (addFile true st p s none).nonCodeFileCount = st.nonCodeFileCount := by
  refine ⟨fun fp => rfl, (addFile_totalFiles true st p s none).1,
    (addFile_totalFiles true st p s none).2, ?_, ?_, ?_, ?_, ?_, ?_⟩ <;>
    simp [addFile]

@[simp] theorem addDirectory_filesByExtension (st : FileStats) :
    (addDirectory st).filesByExtension = st.filesByExtension := rfl

@[simp] theorem addDirectory_sizeByExtension (st : FileStats) :
    (addDirectory st).sizeByExtension = st.sizeByExtension := rfl

@[simp] theorem addDirectory_linesByExtension (st : FileStats) :
    (addDirectory st).linesByExtension = st.linesByExtension := rfl

@[simp] theorem finalizeStats_filesByExtension (st : FileStats) :
    (finalizeStats st).filesByExtension = st.filesByExtension := rfl

@[simp] theorem finalizeStats_sizeByExtension (st : FileStats) :
    (finalizeStats st).sizeByExtension = st.sizeByExtension := rfl

@[simp] theorem finalizeStats_linesByExtension (st : FileStats) :
    (finalizeStats st).linesByExtension = st.linesByExtension := rfl

theorem addFile_filesByExtension (cl : Bool) (st : FileStats) (p : String)
    (s : Nat) (li : Option FileLineInfo) :
    (addFile cl st p s li).filesByExtension
      = mapSet st.filesByExtension (extKey p)
          ((st.filesByExtension (extKey p)).getD 0 + 1) := by
  cases cl <;> cases li <;> simp [addFile]

theorem addFile_sizeByExtension (cl : Bool) (st : FileStats) (p : String)
    (s : Nat) (li : Option FileLineInfo) :
    (addFile cl st p s li).sizeByExtension
      = mapSet st.sizeByExtension (extKey p)
          ((st.sizeByExtension (extKey p)).getD 0 + s) := by
  cases cl <;> cases li <;> simp [addFile]

theorem addFile_linesByExtension (cl : Bool) (st : FileStats) (p : String)
    (s : Nat) (li : Option FileLineInfo) :
    (addFile cl st p s li).linesByExtension = st.linesByExtension
      ∨ ∃ v, (addFile cl st p s li).linesByExtension
          = mapSet st.linesByExtension (extKey p) v := by
  cases cl with
  | false => left; simp [addFile]
  | true =>
    cases li with
    | none => left; simp [addFile]
    | some i =>
      right
      refine ⟨{ total := ((st.linesByExtension (extKey p)).getD ⟨0, 0, 0, 0⟩).total
                  + i.lineCount.total
                code := ((st.linesByExtension (extKey p)).getD ⟨0, 0, 0, 0⟩).code
                  + i.lineCount.code
                comments := ((st.linesByExtension (extKey p)).getD ⟨0, 0, 0, 0⟩).comments
                  + i.lineCount.comments
                blank := ((st.linesByExtension (extKey p)).getD ⟨0, 0, 0, 0⟩).blank
                  + i.lineCount.blank }, ?_⟩
      simp [addFile, updateLineStats_linesByExtension]

/-- Claim C10: after any sequence of addFile, addDirectory and finalize
    calls, filesByExtension and sizeByExtension have exactly the same key
    set, and every key of linesByExtension is a key of filesByExtension. -/
theorem extension_key_alignment (cl : Bool) (evs : List AggEvent) :
    (∀ k, ((runEvents cl initStats evs).filesByExtension k).isSome = true
        ↔ ((runEvents cl initStats evs).sizeByExtension k).isSome = true)
      ∧ (∀ k, ((runEvents cl initStats evs).linesByExtension k).isSome = true
          → ((runEvents cl initStats evs).filesByExtension k).isSome = true) := by
  suffices h : ∀ (es : List AggEvent) (st : FileStats),
      ((∀ k, (st.filesByExtension k).isSome = true
          ↔ (st.sizeByExtension k).isSome = true)
        ∧ (∀ k, (st.linesByExtension k).isSome = true
            → (st.filesByExtension k).isSome = true)) →
      ((∀ k, ((runEvents cl st es).filesByExtension k).isSome = true
          ↔ ((runEvents cl st es).sizeByExtension k).isSome = true)
        ∧ (∀ k, ((runEvents cl st es).linesByExtension k).isSome = true
            → ((runEvents cl st es).filesByExtension k).isSome = true)) by
    exact h evs initStats ⟨fun k => by simp [initStats], fun k => by simp [initStats]⟩
  intro es
  induction es with
  | nil => intro st h; simpa [runEvents] using h
  | cons e rest ih =>
    intro st h
    have hrun : runEvents cl st (e :: rest) = runEvents cl (applyEvent cl st e) rest := by
      simp [runEvents]
    rw [hrun]
    apply ih
    cases e with
    | dir => simpa [applyEvent] using h
    | fin => simpa [applyEvent] using h
    | file p s li =>
      constructor
      · intro k
        show ((addFile cl st p s li).filesByExtension k).isSome = true
          ↔ ((addFile cl st p s li).sizeByExtension k).isSome = true
        rw [addFile_filesByExtension, addFile_sizeByExtension]
        by_cases hk : k = extKey p
        · simp [hk]
        · simpa [hk] using h.1 k
      · intro k
        show ((addFile cl st p s li).linesByExtension k).isSome = true
          → ((addFile cl st p s li).filesByExtension k).isSome = true
        rw [addFile_filesByExtension]
        rcases addFile_linesByExtension cl st p s li with hl | ⟨v, hl⟩ <;> rw [hl]
        · intro hsome
          by_cases hk : k = extKey p
          · simp [hk]
          · simpa [hk] using h.2 k hsome
        · intro hsome
          by_cases hk : k = extKey p
          · simp [hk]
          · simp only [mapSet_apply, hk, if_neg, not_false_iff] at hsome ⊢
            exact h.2 k hsome

theorem splitOnChar_length_pos (sep : Char) (l : List Char) :
    0 < (splitOnChar sep l).length := by
  cases l with
  | nil => simp [splitOnChar]
  | cons c rest =>
    simp only [splitOnChar]
    by_cases h : (c == sep) = true
    · simp [h]
    · simp only [h, Bool.false_eq_true, if_neg, not_false_iff]
      cases hr : splitOnChar sep rest with
      | nil => simp
      | cons a as => simp

theorem pathDepth_pos (p : String) : 1 ≤ pathDepth p :=
  splitOnChar_length_pos '/' p.toList

theorem addFile_deepestPath (cl : Bool) (st : FileStats) (p : String) (s : Nat)
    (li : Option FileLineInfo) :
    (addFile cl st p s li).deepestPath
      = if st.deepestPath.2 < pathDepth p then (p, pathDepth p)
        else st.deepestPath := by
  cases cl <;> cases li <;> simp [addFile, updateDeepest_deepestPath]

theorem runAddFiles_deepest_aux (cl : Bool) :
    ∀ (calls : List FileCall) (st : FileStats),
      ((runAddFiles cl st calls).deepestPath = st.deepestPath
          ∨ ((runAddFiles cl st calls).deepestPath.1
                ∈ calls.map (fun c => c.path)
              ∧ (runAddFiles cl st calls).deepestPath.2
                  = pathDepth (runAddFiles cl st calls).deepestPath.1))
        ∧ st.deepestPath.2 ≤ (runAddFiles cl st calls).deepestPath.2
        ∧ ∀ c ∈ calls, pathDepth c.path ≤ (runAddFiles cl st calls).deepestPath.2 := by
  intro calls
  induction calls with
  | nil =>
    intro st
    refine ⟨Or.inl ?_, ?_, ?_⟩ <;> simp [runAddFiles]
  | cons c cs ih =>
    intro st
    have hrun : runAddFiles cl st (c :: cs)
        = runAddFiles cl (addFile cl st c.path c.size c.lineInfo) cs := by
      simp [runAddFiles]
    have hd := addFile_deepestPath cl st c.path c.size c.lineInfo
    obtain ⟨hA, hB, hC⟩ := ih (addFile cl st c.path c.size c.lineInfo)
    have hmono : st.deepestPath.2
        ≤ (addFile cl st c.path c.size c.lineInfo).deepestPath.2 := by
      rw [hd]; split
      · exact le_of_lt (by assumption)
      · exact le_refl _
    have hcp : pathDepth c.path
        ≤ (addFile cl st c.path c.size c.lineInfo).deepestPath.2 := by
      rw [hd]; split
      · exact le_refl _
      · exact Nat.le_of_not_lt (by assumption)
    refine ⟨?_, ?_, ?_⟩
    · rcases hA with heq | hach
      · rw [hrun, heq, hd]
        by_cases hlt : st.deepestPath.2 < pathDepth c.path
        · right
          constructor
          · simp [hlt]
          · simp [hlt]
        · left; simp [hlt]
      · right
        rw [hrun]
        exact ⟨List.mem_cons_of_mem _ (by simpa using hach.1), hach.2⟩
    · rw [hrun]; exact le_trans hmono hB
    · intro x hx
      rw [hrun]
      rcases List.mem_cons.mp hx with rfl | hxm
      · exact le_trans hcp hB
      · exact hC x hxm

/-- Claim C8: after any nonempty sequence of addFile calls, deepestPath.depth
    equals the maximum split-segment count over all file paths seen,
    deepestPath.path is one of the paths achieving that maximum, and the
    stored pair is replaced exactly when a strictly greater depth is
    observed. -/
theorem deepestPath_spec (cl : Bool) (calls : List FileCall)
    (h : calls ≠ []) :
    ((runAddFiles cl initStats calls).deepestPath.1
        ∈ calls.map (fun c => c.path))
      ∧ (runAddFiles cl initStats calls).deepestPath.2
          = pathDepth ((runAddFiles cl initStats calls).deepestPath.1)
      ∧ (∀ c ∈ calls,
          pathDepth c.path ≤ (runAddFiles cl initStats calls).deepestPath.2)
      ∧ (∀ (st : FileStats) (p : String) (s : Nat) (li : Option FileLineInfo),
          pathDepth p ≤ st.deepestPath.2 →
            (addFile cl st p s li).deepestPath = st.deepestPath)
      ∧ (∀ (st : FileStats) (p : String) (s : Nat) (li : Option FileLineInfo),
          st.deepestPath.2 < pathDepth p →
            (addFile cl st p s li).deepestPath = (p, pathDepth p)) := by
  obtain ⟨hA, -, hC⟩ := runAddFiles_deepest_aux cl calls initStats
  have hstep1 : ∀ (st : FileStats) (p : String) (s : Nat)
      (li : Option FileLineInfo), pathDepth p ≤ st.deepestPath.2 →
        (addFile cl st p s li).deepestPath = st.deepestPath := by
    intro st p s li hle
    rw [addFile_deepestPath]
    simp [Nat.not_lt.mpr hle]
  have hstep2 : ∀ (st : FileStats) (p : String) (s : Nat)
      (li : Option FileLineInfo), st.deepestPath.2 < pathDepth p →
        (addFile cl st p s li).deepestPath = (p, pathDepth p) := by
    intro st p s li hlt
    rw [addFile_deepestPath]
    simp [hlt]
  cases calls with
  | nil => exact absurd rfl h
  | cons c cs =>
    have hcp := hC c (List.mem_cons_self c cs)
    rcases hA with heq | hach
    · rw [heq] at hcp
      have := pathDepth_pos c.path
      simp [initStats] at hcp
      omega
    · exact ⟨hach.1, hach.2, hC, hstep1, hstep2⟩

/-- Witness for Claim C8 at the single concrete call ("a/b", size 1). -/
theorem deepestPath_spec_witness :
    ((runAddFiles false initStats [⟨"a/b", 1, none⟩]).deepestPath.1
        ∈ [(⟨"a/b", 1, none⟩ : FileCall)].map (fun c => c.path))
      ∧ (runAddFiles false initStats [⟨"a/b", 1, none⟩]).deepestPath.2
          = pathDepth ((runAddFiles false initStats [⟨"a/b", 1, none⟩]).deepestPath.1)
      ∧ (∀ c ∈ [(⟨"a/b", 1, none⟩ : FileCall)],
          pathDepth c.path
            ≤ (runAddFiles false initStats [⟨"a/b", 1, none⟩]).deepestPath.2)
      ∧ (∀ (st : FileStats) (p : String) (s : Nat) (li : Option FileLineInfo),
          pathDepth p ≤ st.deepestPath.2 →
            (addFile false st p s li).deepestPath = st.deepestPath)
      ∧ (∀ (st : FileStats) (p : String) (s : Nat) (li : Option FileLineInfo),
          st.deepestPath.2 < pathDepth p →
            (addFile false st p s li).deepestPath = (p, pathDepth p)) :=
  deepestPath_spec false [⟨"a/b", 1, none⟩] (by simp)

/-- The descending-by-size order maintained in largestFiles. -/
abbrev sizeGE (a b : LFile) : Prop := b.size ≤ a.size

theorem mem_insertDesc (x : LFile) (l : List LFile) (z : LFile) :
    z ∈ insertDesc x l ↔ z = x ∨ z ∈ l := by
  induction l with
  | nil => simp [insertDesc]
  | cons y ys ih =>
    simp only [insertDesc]
    split
    · simp [List.mem_cons]
    · simp only [List.mem_cons, ih]
      tauto

theorem insertDesc_pairwise (x : LFile) (l : List LFile)
    (h : l.Pairwise sizeGE) : (insertDesc x l).Pairwise sizeGE := by
  induction l with
  | nil => simp [insertDesc]
  | cons y ys ih =>
    rw [List.pairwise_cons] at h
    obtain ⟨hy, hys⟩ := h
    simp only [insertDesc]
    split
    · rw [List.pairwise_cons]
      refine ⟨?_, List.pairwise_cons.mpr ⟨hy, hys⟩⟩
      intro z hz
      rcases List.mem_cons.mp hz with rfl | hzys
      · exact le_of_lt (by assumption)
      · exact le_trans (hy z hzys) (le_of_lt (by assumption))
    · rw [List.pairwise_cons]
      refine ⟨?_, ih hys⟩
      intro z hz
      rcases (mem_insertDesc x ys z).mp hz with rfl | hzys
      · exact Nat.le_of_not_lt (by assumption)
      · exact hy z hzys

theorem sortDesc_pairwise (l : List LFile) : (sortDesc l).Pairwise sizeGE := by
  suffices h : ∀ (l acc : List LFile), acc.Pairwise sizeGE →
      (l.foldl (fun a x => insertDesc x a) acc).Pairwise sizeGE by
    exact h l [] (by simp)
  intro l
  induction l with
  | nil => intro acc h; simpa using h
  | cons x xs ih =>
    intro acc h
    exact ih _ (insertDesc_pairwise x acc h)

theorem insertDesc_perm (x : LFile) (l : List LFile) :
    List.Perm (insertDesc x l) (x :: l) := by
  induction l with
  | nil => simp [insertDesc]
  | cons y ys ih =>
    simp only [insertDesc]
    split
    · exact List.Perm.refl _
    · exact List.Perm.trans (List.Perm.cons y ih) (List.Perm.swap x y ys)

theorem sortDesc_perm (l : List LFile) : List.Perm (sortDesc l) l := by
  suffices h : ∀ (l acc : List LFile),
      List.Perm (l.foldl (fun a x => insertDesc x a) acc) (acc ++ l) by
    simpa using h l []
  intro l
  induction l with
  | nil => intro acc; simp
  | cons x xs ih =>
    intro acc
    simp only [List.foldl_cons]
    refine List.Perm.trans (ih (insertDesc x acc)) ?_
    refine List.Perm.trans ((insertDesc_perm x acc).append_right xs) ?_
    exact (List.perm_middle).symm

theorem insertDesc_append (x : LFile) (l : List LFile)
    (h : ∀ y ∈ l, x.size ≤ y.size) : insertDesc x l = l ++ [x] := by
  induction l with
  | nil => rfl
  | cons y ys ih =>
    simp only [insertDesc]
    rw [if_neg (Nat.not_lt.mpr (h y (List.mem_cons_self y ys)))]
    rw [ih (fun z hz => h z (List.mem_cons_of_mem y hz))]
    simp

theorem sortDesc_append_single (l : List LFile) (x : LFile) :
    sortDesc (l ++ [x]) = insertDesc x (sortDesc l) := by
  simp [sortDesc, List.foldl_append]

theorem sortDesc_of_pairwise (l : List LFile) (h : l.Pairwise sizeGE) :
    sortDesc l = l := by
  induction l using List.reverseRecOn with
  | nil => rfl
  | append_singleton l x ih =>
    rw [sortDesc_append_single]
    have hl : l.Pairwise sizeGE := (List.pairwise_append.mp h).1
    rw [ih hl]
    apply insertDesc_append
    intro y hy
    exact (List.pairwise_append.mp h).2.2 y hy x (by simp)

theorem take_cons_take (n : Nat) (y : LFile) (ys : List LFile) :
    (y :: ys.take n).take n = (y :: ys).take n := by
  cases n with
  | zero => simp
  | succ m =>
    simp [List.take_succ_cons, List.take_take, Nat.min_eq_left (Nat.le_succ m)]

theorem take_insertDesc (s : List LFile) : ∀ (n : Nat) (x : LFile),
    (insertDesc x (s.take n)).take n = (insertDesc x s).take n := by
  induction s with
  | nil => intro n x; simp
  | cons y ys ih =>
    intro n x
    cases n with
    | zero => simp
    | succ m =>
      rw [List.take_succ_cons]
      simp only [insertDesc]
      by_cases hlt : y.size < x.size
      · rw [if_pos hlt, if_pos hlt, List.take_succ_cons, List.take_succ_cons,
          take_cons_take m y ys]
      · rw [if_neg hlt, if_neg hlt, List.take_succ_cons, List.take_succ_cons,
          ih m x]

theorem addFile_largestFiles (cl : Bool) (st : FileStats) (p : String)
    (s : Nat) (li : Option FileLineInfo) :
    (addFile cl st p s li).largestFiles
      = (sortDesc (st.largestFiles
          ++ [{ name := basenameOf p, size := s, path := p }])).take 5 := by
  cases cl <;> cases li <;> simp [addFile, updateLargest_largestFiles]

/-- The LFile entry an addFile call pushes into largestFiles. -/
def mkEntry (c : FileCall) : LFile :=
  { name := basenameOf c.path, size := c.size, path := c.path }

theorem runAddFiles_largest_aux (cl : Bool) :
    ∀ (calls : List FileCall) (files : List LFile) (st : FileStats),
      st.largestFiles = (sortDesc files).take 5 →
      (runAddFiles cl st calls).largestFiles
        = (sortDesc (files ++ calls.map mkEntry)).take 5 := by
  intro calls
  induction calls with
  | nil => intro files st h; simpa [runAddFiles] using h
  | cons c cs ih =>
    intro files st h
    have hrun : runAddFiles cl st (c :: cs)
        = runAddFiles cl (addFile cl st c.path c.size c.lineInfo) cs := by
      simp [runAddFiles]
    rw [hrun]
    have hstep : (addFile cl st c.path c.size c.lineInfo).largestFiles
        = (sortDesc (files ++ [mkEntry c])).take 5 := by
      rw [addFile_largestFiles, h, sortDesc_append_single, sortDesc_append_single]
      have hsorted : ((sortDesc files).take 5).Pairwise sizeGE :=
        List.Pairwise.sublist (List.take_sublist 5 _) (sortDesc_pairwise files)
      rw [sortDesc_of_pairwise _ hsorted]
      exact take_insertDesc (sortDesc files) 5 (mkEntry c)
    have hrest := ih (files ++ [mkEntry c]) _ hstep
    rw [hrest, List.append_assoc]
    simp

/-- The C4 scenario: six files of sizes 100, 50, 200, 10, 300, 5 in order. -/
def demo4 : List FileCall :=
  [⟨"a", 100, none⟩, ⟨"b", 50, none⟩, ⟨"c", 200, none⟩,
   ⟨"d", 10, none⟩, ⟨"e", 300, none⟩, ⟨"f", 5, none⟩]

/-- Claim C4: after any sequence of addFile calls, largestFiles equals the
    first five entries of the stable descending sort of all pushed entries
    (the true top-5 by size, ties broken by insertion order), has at most 5
    entries, and is sorted descending by size; in particular adding sizes
    100, 50, 200, 10, 300, 5 in order leaves sizes 300, 200, 100, 50, 10. -/
theorem largestFiles_spec (cl : Bool) (calls : List FileCall) :
    (runAddFiles cl initStats calls).largestFiles
        = (sortDesc (calls.map mkEntry)).take 5
      ∧ (runAddFiles cl initStats calls).largestFiles.length ≤ 5
      ∧ (runAddFiles cl initStats calls).largestFiles.Pairwise sizeGE
      ∧ List.Perm (sortDesc (calls.map mkEntry)) (calls.map mkEntry)
      ∧ ((runAddFiles false initStats demo4).largestFiles.map
          (fun f => f.size)) = [300, 200, 100, 50, 10] := by
  have h0 : initStats.largestFiles = (sortDesc ([] : List LFile)).take 5 := rfl
  have hmain := runAddFiles_largest_aux cl calls [] initStats h0
  rw [List.nil_append] at hmain
  refine ⟨hmain, ?_, ?_, sortDesc_perm _, ?_⟩
  · rw [hmain, List.length_take]
    exact min_le_left _ _
  · rw [hmain]
    exact List.Pairwise.sublist (List.take_sublist 5 _) (sortDesc_pairwise _)
  · decide

end DirStats
